import Mathlib

/-!
Verification of the signal protocol codec and bit-receiver state machine.

Shallow embedding of the sources:
* protocol.ts (classes Protocol and GridProtocol),
* domain/bit-receiver.ts (classes BitReceiver and ManualBitReceiver),
* constants/index.ts (the protocol constants).

Conventions used throughout:
* a JavaScript number holding a bit or a byte is embedded as a Nat;
* a JavaScript string is embedded as the list of its Unicode scalar
  values (List Char); TextEncoder / TextDecoder (utf-8, fatal) are
  embedded as utf8Encode / utf8Decode below;
* a thrown exception (MessageTooLongError) is embedded as a none result;
* callback invocations are embedded as an explicit event list returned
  next to the updated receiver state.
-/

set_option maxRecDepth 20000

/-! ## Constants (constants/index.ts) -/

/-- Preamble pattern for clock synchronization, 10101010. -/
def PREAMBLE : List Nat := [1, 0, 1, 0, 1, 0, 1, 0]

/-- Start marker pattern, 8 consecutive 1s. -/
def START_MARKER : List Nat := [1, 1, 1, 1, 1, 1, 1, 1]

/-- Maximum message size in bytes. -/
def MAX_MESSAGE_BYTES : Nat := 200

/-- Maximum bits before timeout. -/
def MAX_BITS_TIMEOUT : Nat := 2000

/-! ## UTF-8 model

The source calls the platform TextEncoder and TextDecoder (with the
utf-8 encoding and the fatal flag).  They are embedded here as the
standard UTF-8 encoding of a list of Unicode scalar values and the
strict UTF-8 decoder: the decoder rejects overlong forms, surrogate
code points, values above 0x10FFFF, stray continuation bytes and
truncated sequences, exactly as a fatal TextDecoder does. -/

/-- UTF-8 encoding of one Unicode scalar value, 1 to 4 bytes. -/
def utf8EncodeChar (c : Char) : List Nat :=
  let n := c.toNat
  if n < 0x80 then [n]
  else if n < 0x800 then [0xC0 + n / 64, 0x80 + n % 64]
  else if n < 0x10000 then
    [0xE0 + n / 4096, 0x80 + n / 64 % 64, 0x80 + n % 64]
  else
    [0xF0 + n / 262144, 0x80 + n / 4096 % 64, 0x80 + n / 64 % 64, 0x80 + n % 64]

/-- TextEncoder: UTF-8 bytes of a text. -/
def utf8Encode (m : List Char) : List Nat :=
  m.flatMap utf8EncodeChar

/-- One step of strict UTF-8 decoding: classify and consume the first
encoded scalar value of the input.  The ok result carries the scalar
value and the remaining bytes; bad is a malformed sequence; short is a
sequence cut off by the end of the input. -/
inductive Utf8Step
  | ok (n : Nat) (rest : List Nat)
  | bad
  | short
deriving DecidableEq, Repr

/-- Classify and consume the first UTF-8 sequence of the input. -/
def utf8DecodeStep : List Nat → Utf8Step
  | [] => .short
  | b0 :: rest =>
    if b0 < 0x80 then .ok b0 rest
    else if b0 < 0xC0 then .bad
    else if b0 < 0xE0 then
      match rest with
      | b1 :: rest1 =>
        if 0x80 ≤ b1 ∧ b1 < 0xC0 then
          if (b0 - 0xC0) * 64 + (b1 - 0x80) < 0x80 then .bad
          else .ok ((b0 - 0xC0) * 64 + (b1 - 0x80)) rest1
        else .bad
      | [] => .short
    else if b0 < 0xF0 then
      match rest with
      | b1 :: b2 :: rest2 =>
        if (0x80 ≤ b1 ∧ b1 < 0xC0) ∧ (0x80 ≤ b2 ∧ b2 < 0xC0) then
          if (b0 - 0xE0) * 4096 + (b1 - 0x80) * 64 + (b2 - 0x80) < 0x800 ∨
              (0xD800 ≤ (b0 - 0xE0) * 4096 + (b1 - 0x80) * 64 + (b2 - 0x80) ∧
                (b0 - 0xE0) * 4096 + (b1 - 0x80) * 64 + (b2 - 0x80) < 0xE000) then
            .bad
          else .ok ((b0 - 0xE0) * 4096 + (b1 - 0x80) * 64 + (b2 - 0x80)) rest2
        else .bad
      | [b1] => if 0x80 ≤ b1 ∧ b1 < 0xC0 then .short else .bad
      | [] => .short
    else if b0 < 0xF8 then
      match rest with
      | b1 :: b2 :: b3 :: rest3 =>
        if (0x80 ≤ b1 ∧ b1 < 0xC0) ∧ (0x80 ≤ b2 ∧ b2 < 0xC0) ∧
            (0x80 ≤ b3 ∧ b3 < 0xC0) then
          if (b0 - 0xF0) * 262144 + (b1 - 0x80) * 4096 + (b2 - 0x80) * 64 +
                (b3 - 0x80) < 0x10000 ∨
              0x10FFFF < (b0 - 0xF0) * 262144 + (b1 - 0x80) * 4096 +
                (b2 - 0x80) * 64 + (b3 - 0x80) then
            .bad
          else
            .ok ((b0 - 0xF0) * 262144 + (b1 - 0x80) * 4096 + (b2 - 0x80) * 64 +
              (b3 - 0x80)) rest3
        else .bad
      | [b1, b2] =>
        if (0x80 ≤ b1 ∧ b1 < 0xC0) ∧ (0x80 ≤ b2 ∧ b2 < 0xC0) then .short
        else .bad
      | [b1] => if 0x80 ≤ b1 ∧ b1 < 0xC0 then .short else .bad
      | [] => .short
    else .bad

/-- Strict decoding loop; the fuel argument (always at least the
length of the input) only makes the recursion structural. -/
def utf8DecodeLoop : Nat → List Nat → Option (List Char)
  | _, [] => some []
  | 0, _ :: _ => none
  | fuel + 1, b0 :: rest =>
    match utf8DecodeStep (b0 :: rest) with
    | .ok n rest1 => (utf8DecodeLoop fuel rest1).map (fun cs => Char.ofNat n :: cs)
    | .bad => none
    | .short => none

/-- TextDecoder with the utf-8 encoding and the fatal flag: strict
UTF-8 decoding, none on any malformed or cut-off input. -/
def utf8Decode (l : List Nat) : Option (List Char) :=
  utf8DecodeLoop l.length l

/-- Trimming decoding loop: identical to the strict loop except that a
sequence cut off by the end of the input is dropped. -/
def utf8DecodeTrimLoop : Nat → List Nat → Option (List Char)
  | _, [] => some []
  | 0, _ :: _ => none
  | fuel + 1, b0 :: rest =>
    match utf8DecodeStep (b0 :: rest) with
    | .ok n rest1 => (utf8DecodeTrimLoop fuel rest1).map (fun cs => Char.ofNat n :: cs)
    | .bad => none
    | .short => some []

/-- Best-effort strict UTF-8 decoding of a byte prefix: identical to
utf8Decode except that a sequence cut off by the end of the input is
trimmed (dropped) instead of rejected.  Used by the spec-modelled
partial decode. -/
def utf8DecodeTrim (l : List Nat) : Option (List Char) :=
  utf8DecodeTrimLoop l.length l

/-! ## Protocol (protocol.ts, class Protocol) -/

namespace Protocol

/-- byteToBits: convert a byte to an array of 8 bits, MSB first
(the loop pushes (byte >> i) & 1 for i = 7 down to 0). -/
def byteToBits (byte : Nat) : List Nat :=
  [7, 6, 5, 4, 3, 2, 1, 0].map (fun i => (byte >>> i) &&& 1)

/-- bitsToNumber: reduce with (acc << 1) | bit starting from 0. -/
def bitsToNumber (bits : List Nat) : Nat :=
  bits.foldl (fun acc bit => (acc <<< 1) ||| bit) 0

/-- calculateChecksum: XOR of all bytes. -/
def calculateChecksum (bytes : List Nat) : Nat :=
  bytes.foldl (fun checksum byte => checksum ^^^ byte) 0

/-- findStartMarker: index of the first run of 8 consecutive 1s, none
when no window of 8 bits is all ones (the source returns -1). -/
def findStartMarker : List Nat → Option Nat
  | [] => none
  | b :: rest =>
    if (b :: rest).length < 8 then none
    else if ((b :: rest).take 8).all (fun x => x == 1) then some 0
    else (findStartMarker rest).map (fun i => i + 1)

/-- encode: preamble, start marker, length byte, data bytes, checksum
byte, all MSB first; none embeds the thrown MessageTooLongError. -/
def encode (message : List Char) : Option (List Nat) :=
  let bytes := utf8Encode message
  if bytes.length > MAX_MESSAGE_BYTES then none
  else
    some (PREAMBLE ++ START_MARKER ++ byteToBits bytes.length ++
      bytes.flatMap byteToBits ++ byteToBits (calculateChecksum bytes))

/-- The loop of decode that reads count bytes of 8 bits each starting
at bitIndex, none as soon as a byte is truncated. -/
def readDataBytes (bits : List Nat) (bitIndex : Nat) : Nat → Option (List Nat)
  | 0 => some []
  | count + 1 =>
    let byteBits := (bits.drop bitIndex).take 8
    if byteBits.length < 8 then none
    else
      match readDataBytes bits (bitIndex + 8) count with
      | none => none
      | some rest => some (bitsToNumber byteBits :: rest)

/-- decode: locate the start marker, read the length byte, the data
bytes and the checksum byte, verify the checksum, then decode UTF-8
strictly; none on any failure. -/
def decode (bits : List Nat) : Option (List Char) :=
  match findStartMarker bits with
  | none => none
  | some markerIndex =>
    let dataStart := markerIndex + 8
    let lengthBits := (bits.drop dataStart).take 8
    if lengthBits.length < 8 then none
    else
      let dataLength := bitsToNumber lengthBits
      if dataLength > MAX_MESSAGE_BYTES ∨ dataLength = 0 then none
      else
        match readDataBytes bits (dataStart + 8) dataLength with
        | none => none
        | some dataBytes =>
          let checksumBits := (bits.drop (dataStart + 8 + 8 * dataLength)).take 8
          if checksumBits.length < 8 then none
          else
            let receivedChecksum := bitsToNumber checksumBits
            let calculatedChecksum := calculateChecksum dataBytes
            if receivedChecksum ≠ calculatedChecksum then none
            else utf8Decode dataBytes

/-- calculateBitCount: preamble + marker + length + data + checksum. -/
def calculateBitCount (message : List Char) : Nat :=
  8 + 8 + 8 + (utf8Encode message).length * 8 + 8

/-- getByteLength: UTF-8 byte length of a message. -/
def getByteLength (message : List Char) : Nat :=
  (utf8Encode message).length

/-- canEncode: whether the message fits in the size limit. -/
def canEncode (message : List Char) : Bool :=
  getByteLength message ≤ MAX_MESSAGE_BYTES

/-- Modelled from the spec: Protocol.decodePartial is called by
bit-receiver.ts and color-channel.ts but its implementation is not
among the provided sources.  Spec: attempt decode of however many
complete data bytes are currently available (ignoring checksum),
trimming any trailing incomplete UTF-8 sequence; returns none if fewer
than 32 bits are available or no valid marker/length can be located
yet. -/
def decodePartial (bits : List Nat) : Option (List Char) :=
  if bits.length < 32 then none
  else
    match findStartMarker bits with
    | none => none
    | some markerIndex =>
      let dataStart := markerIndex + 8
      let lengthBits := (bits.drop dataStart).take 8
      if lengthBits.length < 8 then none
      else
        let dataLength := bitsToNumber lengthBits
        if dataLength > MAX_MESSAGE_BYTES ∨ dataLength = 0 then none
        else
          let available := min dataLength ((bits.length - (dataStart + 8)) / 8)
          match readDataBytes bits (dataStart + 8) available with
          | none => none
          | some dataBytes => utf8DecodeTrim dataBytes

end Protocol

/-! ## GridProtocol (protocol.ts, class GridProtocol) -/

namespace GridProtocol

/-- calculateChecksum: XOR of all bytes (the grid class has its own
copy of the same loop). -/
def calculateChecksum (bytes : List Nat) : Nat :=
  bytes.foldl (fun checksum byte => checksum ^^^ byte) 0

/-- The loop of encode that splits the payload into 2-byte frames
(the payload is padded to even length before the split, so the
single-element case is never reached on inputs the source produces;
there payload at i + 1 would be undefined, embedded as 0). -/
def chunkPairs : List Nat → List (List Nat)
  | [] => []
  | [a] => [[a, 0]]
  | a :: b :: rest => [a, b] :: chunkPairs rest

/-- encode: payload is length byte, data bytes, checksum byte, padded
with a zero byte to even length, split into 2-byte frames; none embeds
the thrown MessageTooLongError. -/
def encode (message : List Char) : Option (List (List Nat)) :=
  let data := utf8Encode message
  if data.length > MAX_MESSAGE_BYTES then none
  else
    let payload := data.length :: data ++ [calculateChecksum data]
    let payload := if payload.length % 2 ≠ 0 then payload ++ [0] else payload
    some (chunkPairs payload)

/-- The loop of decode that flattens frames to bytes, pushing frame[0]
and frame[1] of every frame (a missing entry would be undefined in the
source, embedded as 0). -/
def flattenBytes (frames : List (List Nat)) : List Nat :=
  frames.flatMap (fun frame => [frame.getD 0 0, frame.getD 1 0])

/-- decode: read the length byte, check that enough bytes are present
(length + 2 rounded up to even), verify the checksum, then decode
UTF-8 strictly; none on any failure. -/
def decode (frames : List (List Nat)) : Option (List Char) :=
  if frames.length = 0 then none
  else
    let bytes := flattenBytes frames
    let dataLength := bytes.getD 0 0
    if dataLength = 0 ∨ dataLength > MAX_MESSAGE_BYTES then none
    else
      let minBytes := dataLength + 2
      let expectedBytes := if minBytes % 2 = 0 then minBytes else minBytes + 1
      if bytes.length < expectedBytes then none
      else
        let data := (bytes.drop 1).take dataLength
        let receivedChecksum := bytes.getD (1 + dataLength) 0
        let calculatedChecksum := calculateChecksum data
        if receivedChecksum ≠ calculatedChecksum then none
        else utf8Decode data

/-- frameToCells: high byte to cells 0-7, low byte to cells 8-15, MSB
first (the same push of (byte >> i) & 1 for i = 7 down to 0). -/
def frameToCells (frame : List Nat) : List Nat :=
  let highByte := frame.getD 0 0
  let lowByte := frame.getD 1 0
  ([7, 6, 5, 4, 3, 2, 1, 0].map (fun i => (highByte >>> i) &&& 1)) ++
    ([7, 6, 5, 4, 3, 2, 1, 0].map (fun i => (lowByte >>> i) &&& 1))

/-- cellsToFrame: rebuild the high byte from cells 0-7 and the low
byte from cells 8-15; cells[i] ? 1 : 0 embeds JavaScript truthiness of
a number. -/
def cellsToFrame (cells : List Nat) : List Nat :=
  let highByte := (List.range 8).foldl
    (fun acc i => (acc <<< 1) ||| (if cells.getD i 0 ≠ 0 then 1 else 0)) 0
  let lowByte := ((List.range 8).map (fun i => i + 8)).foldl
    (fun acc i => (acc <<< 1) ||| (if cells.getD i 0 ≠ 0 then 1 else 0)) 0
  [highByte, lowByte]

end GridProtocol

/-! ## Bit receiver (domain/bit-receiver.ts)

The receiver classes mutate fields and invoke callbacks; they are
embedded as pure step functions returning the updated state together
with the list of callback invocations of the step, in order.  Time
stamps (performance.now values, milliseconds) are embedded as
rationals; GAP_THRESHOLD_MULTIPLIER (0.6) is embedded as the rational
3 / 5.  The short English strings passed to callbacks are embedded as
enumerated labels. -/

/-- ReceiverState from types/index.ts. -/
inductive ReceiverState
  | idle
  | pilot
  | gap
  | bits
deriving DecidableEq, Repr

/-- Labels of the message strings handed to onStatusChange and
onError. -/
inductive MsgLabel
  | timeoutMsg
  | decodeFailedMsg
  | receiveTimeoutLong
  | checksumFailedLong
deriving DecidableEq, Repr

/-- ReceiverError type field. -/
inductive ErrorType
  | checksum
  | timeout
  | permission
  | decodeErr
deriving DecidableEq, Repr

/-- ReceiverStatus from types/index.ts. -/
inductive Status
  | idle
  | pilot
  | gap
  | receiving (progress : ℚ) (partialText : Option (List Char))
  | success
  | error (message : MsgLabel)
deriving DecidableEq, Repr

/-- One callback invocation. -/
inductive Event
  | statusChange (status : Status)
  | onMessage (message : List Char)
  | onError (type : ErrorType) (message : MsgLabel)
deriving DecidableEq, Repr

/-- BitReceiverConfig: bitMs, guardMs, gapMs (the gapMs default 300 is
applied by the constructor). -/
structure BitReceiverConfig where
  bitMs : ℚ
  guardMs : ℚ
  gapMs : ℚ
deriving DecidableEq, Repr

/-- Minimum bits before attempting a preview decode. -/
def PARTIAL_DECODE_MIN_BITS : Nat := 32

namespace BitReceiver

/-- Mutable fields of class BitReceiver. -/
structure State where
  state : ReceiverState
  bits : List Nat
  gapStartTime : ℚ
  lastBitTime : ℚ
deriving DecidableEq, Repr

/-- reset: back to idle with everything cleared. -/
def reset (_r : State) : State :=
  { state := .idle, bits := [], gapStartTime := 0, lastBitTime := 0 }

/-- tryDecode: on success emit success, the message, reset, emit idle;
on failure do nothing. -/
def tryDecode (r : State) : State × List Event :=
  match Protocol.decode r.bits with
  | some message =>
    (reset r,
      [.statusChange .success, .onMessage message, .statusChange .idle])
  | none => (r, [])

/-- handleTimeout: emit the timeout error, reset, emit idle. -/
def handleTimeout (r : State) : State × List Event :=
  (reset r,
    [.statusChange (.error .timeoutMsg),
      .onError .timeout .receiveTimeoutLong,
      .statusChange .idle])

/-- handleIdleState: move to pilot when the pilot is detected. -/
def handleIdleState (r : State) (pilotDetected : Bool) : State × List Event :=
  if pilotDetected then
    ({ r with state := .pilot }, [.statusChange .pilot])
  else (r, [])

/-- handlePilotState: move to gap when the pilot ends. -/
def handlePilotState (r : State) (now : ℚ) (pilotDetected : Bool) :
    State × List Event :=
  if ¬pilotDetected then
    ({ r with state := .gap, gapStartTime := now }, [.statusChange .gap])
  else (r, [])

/-- handleGapState: move to bits after 0.6 of the gap duration. -/
def handleGapState (cfg : BitReceiverConfig) (r : State) (now : ℚ) :
    State × List Event :=
  if now - r.gapStartTime ≥ cfg.gapMs * (3 / 5) then
    ({ r with state := .bits, bits := [], lastBitTime := now },
      [.statusChange (.receiving 0 none)])
  else (r, [])

/-- handleBitsState: once per bit interval sample a bit; if one is
confidently detected, append it, emit the receiving status with
progress and preview text, attempt a decode once 24 bits are
collected, then check the 2000-bit timeout.  The source tests the
preview text for truthiness, so an empty preview is dropped. -/
def handleBitsState (cfg : BitReceiverConfig) (r : State) (now : ℚ)
    (bitSample : Option Nat) : State × List Event :=
  if now - r.lastBitTime ≥ cfg.bitMs + cfg.guardMs then
    match bitSample with
    | none => (r, [])
    | some bit =>
      let r1 : State := { r with bits := r.bits ++ [bit], lastBitTime := now }
      let minBits : Nat := 24 + 8
      let progress : ℚ := min 1 ((r1.bits.length : ℚ) / (minBits : ℚ))
      let previewText : Option (List Char) :=
        if r1.bits.length ≥ PARTIAL_DECODE_MIN_BITS then
          match Protocol.decodePartial r1.bits with
          | some t => if t ≠ [] then some t else none
          | none => none
        else none
      let ev1 : List Event := [.statusChange (.receiving progress previewText)]
      let (r2, ev2) :=
        if r1.bits.length ≥ 24 then tryDecode r1 else (r1, [])
      let (r3, ev3) :=
        if r2.bits.length > MAX_BITS_TIMEOUT then handleTimeout r2 else (r2, [])
      (r3, ev1 ++ ev2 ++ ev3)
  else (r, [])

/-- processFrame: dispatch on the current state; the pilot and bit
detector results of this tick are passed in explicitly. -/
def processFrame (cfg : BitReceiverConfig) (r : State) (now : ℚ)
    (pilotDetected : Bool) (bitSample : Option Nat) : State × List Event :=
  match r.state with
  | .idle => handleIdleState r pilotDetected
  | .pilot => handlePilotState r now pilotDetected
  | .gap => handleGapState cfg r now
  | .bits => handleBitsState cfg r now bitSample

end BitReceiver

namespace ManualBitReceiver

/-- Mutable fields of class ManualBitReceiver. -/
structure State where
  state : ReceiverState
  bits : List Nat
deriving DecidableEq, Repr

/-- reset: back to idle with the bits cleared, emitting idle. -/
def reset (_r : State) : State × List Event :=
  ({ state := .idle, bits := [] }, [.statusChange .idle])

/-- addBit: push one bit. -/
def addBit (r : State) (bit : Nat) : State :=
  { r with bits := r.bits ++ [bit] }

/-- clearBits: drop the collected bits, keeping the state. -/
def clearBits (r : State) : State :=
  { r with bits := [] }

/-- processPilotDetected: idle to pilot on detection, pilot to gap
when detection ends. -/
def processPilotDetected (r : State) (detected : Bool) : State × List Event :=
  if r.state = .idle ∧ detected then
    ({ r with state := .pilot }, [.statusChange .pilot])
  else if r.state = .pilot ∧ ¬detected then
    ({ r with state := .gap }, [.statusChange .gap])
  else (r, [])

/-- startBitCollection: gap to bits, clearing the buffer. -/
def startBitCollection (r : State) : State × List Event :=
  if r.state = .gap then
    ({ state := .bits, bits := [] }, [.statusChange (.receiving 0 none)])
  else (r, [])

/-- tryDecode: on success emit success and the message and reset; on
failure emit a decode-failed status and a checksum error, leaving the
state and the bits untouched. -/
def tryDecode (r : State) : State × List Event :=
  match Protocol.decode r.bits with
  | some message =>
    let (r2, ev2) := reset r
    (r2, [.statusChange .success, .onMessage message] ++ ev2)
  | none =>
    (r, [.statusChange (.error .decodeFailedMsg),
      .onError .checksum .checksumFailedLong])

end ManualBitReceiver

/-! ## Arithmetic helper lemmas -/

theorem shl1_or_mod2 (a x : Nat) : (a <<< 1) ||| (x % 2) = 2 * a + x % 2 := by
  have h1 : a <<< 1 = 2 * a := by rw [Nat.shiftLeft_eq]; ring
  have hx : x % 2 = 0 ∨ x % 2 = 1 := by omega
  rcases hx with h | h <;> rw [h, h1]
  · simp
  · apply Nat.eq_of_testBit_eq
    intro i
    cases i with
    | zero => simp [Nat.testBit_zero]; omega
    | succ i =>
      have e1 : 2 * a / 2 = a := by omega
      have e2 : (2 * a + 1) / 2 = a := by omega
      have e3 : (1 : Nat) / 2 = 0 := by norm_num
      rw [Nat.testBit_or, Nat.testBit_add_one, Nat.testBit_add_one,
        Nat.testBit_add_one, e1, e2, e3]
      simp

theorem byteToBits_eq (b : Nat) :
    Protocol.byteToBits b =
      [b / 128 % 2, b / 64 % 2, b / 32 % 2, b / 16 % 2,
        b / 8 % 2, b / 4 % 2, b / 2 % 2, b % 2] := by
  simp [Protocol.byteToBits, Nat.shiftRight_eq_div_pow, Nat.and_one_is_mod]

theorem length_byteToBits (b : Nat) : (Protocol.byteToBits b).length = 8 := by
  rw [byteToBits_eq]; rfl

theorem bitsToNumber_byteToBits (b : Nat) (hb : b < 256) :
    Protocol.bitsToNumber (Protocol.byteToBits b) = b := by
  rw [byteToBits_eq]
  simp only [Protocol.bitsToNumber, List.foldl, shl1_or_mod2]
  omega


/-! ## UTF-8 round trip -/

theorem utf8DecodeStep_shrinks :
    ∀ (l : List Nat) (n : Nat) (rest1 : List Nat),
      utf8DecodeStep l = .ok n rest1 → rest1.length < l.length := by
  intro l n rest1 h
  cases l with
  | nil => simp [utf8DecodeStep] at h
  | cons b0 rest =>
    simp only [utf8DecodeStep] at h
    repeat' split at h
    all_goals try simp_all
    all_goals omega

theorem utf8DecodeLoop_nil (fuel : Nat) : utf8DecodeLoop fuel [] = some [] := by
  cases fuel <;> rfl

theorem utf8DecodeLoop_eq :
    ∀ (fuel : Nat) (l : List Nat), l.length ≤ fuel →
      utf8DecodeLoop fuel l = utf8Decode l := by
  intro fuel
  induction fuel using Nat.strong_induction_on with
  | _ fuel ih =>
    intro l hl
    cases l with
    | nil => rw [utf8DecodeLoop_nil]; rfl
    | cons b0 rest =>
      have hpos : 0 < fuel := by simp at hl; omega
      obtain ⟨f, rfl⟩ : ∃ f, fuel = f + 1 := ⟨fuel - 1, by omega⟩
      rw [utf8Decode]
      simp only [List.length_cons]
      rw [utf8DecodeLoop, utf8DecodeLoop]
      cases hstep : utf8DecodeStep (b0 :: rest) with
      | ok n rest1 =>
        have hlt := utf8DecodeStep_shrinks _ _ _ hstep
        simp only [List.length_cons] at hlt hl
        have e1 := ih f (by omega) rest1 (by omega)
        have e2 := ih rest.length (by omega) rest1 (by omega)
        simp [e1, e2]
      | bad => rfl
      | short => rfl

theorem utf8Decode_of_step_ok {l : List Nat} {n : Nat} {rest1 : List Nat}
    (h : utf8DecodeStep l = .ok n rest1) :
    utf8Decode l = (utf8Decode rest1).map (fun cs => Char.ofNat n :: cs) := by
  cases l with
  | nil => simp [utf8DecodeStep] at h
  | cons b0 rest =>
    have hlt := utf8DecodeStep_shrinks _ _ _ h
    simp only [List.length_cons] at hlt
    rw [utf8Decode]
    simp only [List.length_cons]
    rw [utf8DecodeLoop, h]
    have e := utf8DecodeLoop_eq rest.length rest1 (by omega)
    simp [e]

theorem utf8DecodeStep_encodeChar (c : Char) (bs : List Nat) :
    utf8DecodeStep (utf8EncodeChar c ++ bs) = .ok c.toNat bs := by
  have hv : c.toNat < 0xD800 ∨ (0xDFFF < c.toNat ∧ c.toNat < 0x110000) := c.valid
  by_cases h1 : c.toNat < 0x80
  · have he : utf8EncodeChar c = [c.toNat] := by
      simp only [utf8EncodeChar]
      rw [if_pos h1]
    rw [he, List.cons_append, List.nil_append]
    simp [utf8DecodeStep, h1]
  · by_cases h2 : c.toNat < 0x800
    · have he : utf8EncodeChar c = [0xC0 + c.toNat / 64, 0x80 + c.toNat % 64] := by
        simp only [utf8EncodeChar]
        rw [if_neg h1, if_pos h2]
      have k1 : ¬(0xC0 + c.toNat / 64 < 0x80) := by omega
      have k2 : ¬(0xC0 + c.toNat / 64 < 0xC0) := by omega
      have k3 : 0xC0 + c.toNat / 64 < 0xE0 := by omega
      have k4 : 0x80 ≤ 0x80 + c.toNat % 64 ∧ 0x80 + c.toNat % 64 < 0xC0 := by
        constructor <;> omega
      have k5 : c.toNat / 64 * 64 + c.toNat % 64 = c.toNat := by omega
      rw [he]
      simp only [List.cons_append, List.nil_append]
      simp [utf8DecodeStep, k1, k2, k3, k4, k5, h1]
    · by_cases h3 : c.toNat < 0x10000
      · have he : utf8EncodeChar c =
            [0xE0 + c.toNat / 4096, 0x80 + c.toNat / 64 % 64, 0x80 + c.toNat % 64] := by
          simp only [utf8EncodeChar]
          rw [if_neg h1, if_neg h2, if_pos h3]
        have k1 : ¬(0xE0 + c.toNat / 4096 < 0x80) := by omega
        have k2 : ¬(0xE0 + c.toNat / 4096 < 0xC0) := by omega
        have k3 : ¬(0xE0 + c.toNat / 4096 < 0xE0) := by omega
        have k4 : 0xE0 + c.toNat / 4096 < 0xF0 := by omega
        have k5 : (0x80 ≤ 0x80 + c.toNat / 64 % 64 ∧ 0x80 + c.toNat / 64 % 64 < 0xC0) ∧
            (0x80 ≤ 0x80 + c.toNat % 64 ∧ 0x80 + c.toNat % 64 < 0xC0) := by
          refine ⟨⟨?_, ?_⟩, ?_, ?_⟩ <;> omega
        have k6 : c.toNat / 4096 * 4096 + c.toNat / 64 % 64 * 64 + c.toNat % 64
            = c.toNat := by omega
        have k7 : ¬(c.toNat < 0x800 ∨ (0xD800 ≤ c.toNat ∧ c.toNat < 0xE000)) := by
          rcases hv with h | h <;> · push_neg; omega
        rw [he]
        simp only [List.cons_append, List.nil_append]
        simp [utf8DecodeStep, k1, k2, k3, k4, k5, k6, k7]
      · have h4 : c.toNat < 0x110000 := by rcases hv with h | h <;> omega
        have he : utf8EncodeChar c =
            [0xF0 + c.toNat / 262144, 0x80 + c.toNat / 4096 % 64,
              0x80 + c.toNat / 64 % 64, 0x80 + c.toNat % 64] := by
          simp only [utf8EncodeChar]
          rw [if_neg h1, if_neg h2, if_neg h3]
        have k1 : ¬(0xF0 + c.toNat / 262144 < 0x80) := by omega
        have k2 : ¬(0xF0 + c.toNat / 262144 < 0xC0) := by omega
        have k3 : ¬(0xF0 + c.toNat / 262144 < 0xE0) := by omega
        have k4 : ¬(0xF0 + c.toNat / 262144 < 0xF0) := by omega
        have k5 : 0xF0 + c.toNat / 262144 < 0xF8 := by omega
        have k6 : (0x80 ≤ 0x80 + c.toNat / 4096 % 64 ∧ 0x80 + c.toNat / 4096 % 64 < 0xC0) ∧
            (0x80 ≤ 0x80 + c.toNat / 64 % 64 ∧ 0x80 + c.toNat / 64 % 64 < 0xC0) ∧
            (0x80 ≤ 0x80 + c.toNat % 64 ∧ 0x80 + c.toNat % 64 < 0xC0) := by
          refine ⟨⟨?_, ?_⟩, ⟨?_, ?_⟩, ?_, ?_⟩ <;> omega
        have k7 : c.toNat / 262144 * 262144 + c.toNat / 4096 % 64 * 4096 +
            c.toNat / 64 % 64 * 64 + c.toNat % 64 = c.toNat := by omega
        have k8 : ¬(c.toNat < 0x10000 ∨ 0x10FFFF < c.toNat) := by
          push_neg
          constructor <;> omega
        rw [he]
        simp only [List.cons_append, List.nil_append]
        simp [utf8DecodeStep, k1, k2, k3, k4, k5, k6, k7, k8]

theorem utf8Decode_encodeChar (c : Char) (bs : List Nat) :
    utf8Decode (utf8EncodeChar c ++ bs) =
      (utf8Decode bs).map (fun cs => c :: cs) := by
  rw [utf8Decode_of_step_ok (utf8DecodeStep_encodeChar c bs)]
  rw [Char.ofNat_toNat]

theorem utf8Decode_utf8Encode (m : List Char) :
    utf8Decode (utf8Encode m) = some m := by
  induction m with
  | nil => rfl
  | cons c cs ih =>
    rw [utf8Encode, List.flatMap_cons]
    rw [utf8Decode_encodeChar]
    rw [show cs.flatMap utf8EncodeChar = utf8Encode cs from rfl, ih]
    rfl

/-! ## Byte bounds -/

theorem utf8EncodeChar_lt (c : Char) : ∀ b ∈ utf8EncodeChar c, b < 256 := by
  intro b hb
  have hv : c.toNat < 0xD800 ∨ (0xDFFF < c.toNat ∧ c.toNat < 0x110000) := c.valid
  have h4 : c.toNat < 0x110000 := by rcases hv with h | h <;> omega
  simp only [utf8EncodeChar] at hb
  split_ifs at hb with h1 h2 h3
  · simp at hb; omega
  · simp at hb; rcases hb with rfl | rfl <;> omega
  · simp at hb; rcases hb with rfl | rfl | rfl <;> omega
  · simp at hb; rcases hb with rfl | rfl | rfl | rfl <;> omega

theorem utf8Encode_lt (m : List Char) : ∀ b ∈ utf8Encode m, b < 256 := by
  intro b hb
  simp only [utf8Encode, List.mem_flatMap] at hb
  obtain ⟨c, _, hc⟩ := hb
  exact utf8EncodeChar_lt c b hc

theorem checksum_fold_lt (bytes : List Nat) :
    ∀ acc, (∀ b ∈ bytes, b < 256) → acc < 256 →
      bytes.foldl (fun checksum byte => checksum ^^^ byte) acc < 256 := by
  induction bytes with
  | nil => intro acc _ h; simpa using h
  | cons b bs ih =>
    intro acc hmem hacc
    simp only [List.foldl]
    apply ih
    · intro x hx; exact hmem x (List.mem_cons_of_mem _ hx)
    · have h1 : b < 256 := hmem b (List.mem_cons_self _ _)
      have h2 := Nat.xor_lt_two_pow (n := 8) (by simpa using hacc) (by simpa using h1)
      simpa using h2

theorem calculateChecksum_lt (bytes : List Nat) (h : ∀ b ∈ bytes, b < 256) :
    Protocol.calculateChecksum bytes < 256 :=
  checksum_fold_lt bytes 0 h (by norm_num)

theorem length_flatMap_byteToBits (data : List Nat) :
    (data.flatMap Protocol.byteToBits).length = 8 * data.length := by
  induction data with
  | nil => rfl
  | cons d ds ih =>
    simp only [List.flatMap_cons, List.length_append, length_byteToBits, ih,
      List.length_cons]
    ring

/-! ## Locating the start marker -/

theorem fsm_cons_neg {b : Nat} {rest : List Nat} (h8 : 7 ≤ rest.length)
    (hno : ¬(((b :: rest).take 8).all (fun x => x == 1) = true)) :
    Protocol.findStartMarker (b :: rest) =
      (Protocol.findStartMarker rest).map (fun i => i + 1) := by
  rw [Protocol.findStartMarker]
  rw [if_neg (by simp; omega), if_neg hno]

theorem fsm_cons_pos {b : Nat} {rest : List Nat} (h8 : 7 ≤ rest.length)
    (hall : ((b :: rest).take 8).all (fun x => x == 1) = true) :
    Protocol.findStartMarker (b :: rest) = some 0 := by
  rw [Protocol.findStartMarker]
  rw [if_neg (by simp; omega), if_pos hall]

theorem fsm_preamble (t : List Nat) :
    Protocol.findStartMarker (PREAMBLE ++ (START_MARKER ++ t)) = some 8 := by
  simp only [PREAMBLE, START_MARKER, List.cons_append, List.nil_append]
  rw [fsm_cons_neg (by simp) (by simp)]
  rw [fsm_cons_neg (by simp) (by simp)]
  rw [fsm_cons_neg (by simp) (by simp)]
  rw [fsm_cons_neg (by simp) (by simp)]
  rw [fsm_cons_neg (by simp) (by simp)]
  rw [fsm_cons_neg (by simp) (by simp)]
  rw [fsm_cons_neg (by simp) (by simp)]
  rw [fsm_cons_neg (by simp) (by simp)]
  rw [fsm_cons_pos (by simp) (by simp)]
  rfl

theorem fsm_garbage (g t : List Nat)
    (hg : Protocol.findStartMarker (g ++ PREAMBLE) = none) :
    Protocol.findStartMarker (g ++ (PREAMBLE ++ (START_MARKER ++ t))) =
      some (g.length + 8) := by
  induction g with
  | nil => simpa using fsm_preamble t
  | cons b g' ih =>
    rw [List.cons_append] at hg
    have h8 : 7 ≤ (g' ++ PREAMBLE).length := by simp [PREAMBLE]
    by_cases hall : ((b :: (g' ++ PREAMBLE)).take 8).all (fun x => x == 1) = true
    · rw [fsm_cons_pos h8 hall] at hg; simp at hg
    · rw [fsm_cons_neg h8 hall] at hg
      have hg' : Protocol.findStartMarker (g' ++ PREAMBLE) = none := by
        cases hfsm : Protocol.findStartMarker (g' ++ PREAMBLE) with
        | none => rfl
        | some i => rw [hfsm] at hg; simp at hg
      have hwin : ((b :: (g' ++ (PREAMBLE ++ (START_MARKER ++ t)))).take 8) =
          ((b :: (g' ++ PREAMBLE)).take 8) := by
        have e1 : b :: (g' ++ (PREAMBLE ++ (START_MARKER ++ t))) =
            (b :: (g' ++ PREAMBLE)) ++ (START_MARKER ++ t) := by
          simp
        rw [e1, List.take_append_of_le_length]
        simp [PREAMBLE]
      rw [List.cons_append]
      rw [fsm_cons_neg (by simp [PREAMBLE, START_MARKER]; omega)
        (by rw [hwin]; exact hall)]
      rw [ih hg']
      simp [Nat.add_comm, Nat.add_assoc, Nat.add_left_comm]

/-! ## Reading whole frames -/

theorem readDataBytes_full :
    ∀ (data pre suf : List Nat), (∀ b ∈ data, b < 256) →
      Protocol.readDataBytes (pre ++ (data.flatMap Protocol.byteToBits ++ suf))
        pre.length data.length = some data := by
  intro data
  induction data with
  | nil => intro pre suf _; simp [Protocol.readDataBytes]
  | cons d ds ih =>
    intro pre suf h
    have hd : d < 256 := h d (by simp)
    have hds : ∀ b ∈ ds, b < 256 := fun b hb => h b (by simp [hb])
    simp only [List.flatMap_cons, List.append_assoc, List.length_cons]
    have e2 : ((pre ++ (Protocol.byteToBits d ++
          (ds.flatMap Protocol.byteToBits ++ suf))).drop pre.length).take 8
        = Protocol.byteToBits d := by
      rw [List.drop_left, List.take_left' (length_byteToBits d)]
    have e4 : Protocol.readDataBytes
        (pre ++ (Protocol.byteToBits d ++ (ds.flatMap Protocol.byteToBits ++ suf)))
        (pre.length + 8) ds.length = some ds := by
      have h5 := ih (pre ++ Protocol.byteToBits d) suf hds
      rw [show (pre ++ Protocol.byteToBits d) ++ (ds.flatMap Protocol.byteToBits ++ suf)
          = pre ++ (Protocol.byteToBits d ++ (ds.flatMap Protocol.byteToBits ++ suf))
          from by simp [List.append_assoc]] at h5
      simpa [List.length_append, length_byteToBits] using h5
    simp [Protocol.readDataBytes, e2, length_byteToBits, e4,
      bitsToNumber_byteToBits d hd]

/-! ## Decoding a full frame, with leading garbage tolerated -/

theorem decode_frame (g data : List Nat) (cbyte : Nat)
    (hg : Protocol.findStartMarker (g ++ PREAMBLE) = none)
    (hdata : ∀ b ∈ data, b < 256) (hc : cbyte < 256) (hlen : data.length < 256) :
    Protocol.decode (g ++ (PREAMBLE ++ (START_MARKER ++
        (Protocol.byteToBits data.length ++
          (data.flatMap Protocol.byteToBits ++ Protocol.byteToBits cbyte))))) =
      if data.length > MAX_MESSAGE_BYTES ∨ data.length = 0 then none
      else if cbyte ≠ Protocol.calculateChecksum data then none
      else utf8Decode data := by
  have hfsm := fsm_garbage g (Protocol.byteToBits data.length ++
    (data.flatMap Protocol.byteToBits ++ Protocol.byteToBits cbyte)) hg
  have hC : List.take 8 (List.drop (g.length + 8 + 8)
      (g ++ (PREAMBLE ++ (START_MARKER ++
        (Protocol.byteToBits data.length ++
          (data.flatMap Protocol.byteToBits ++ Protocol.byteToBits cbyte))))))
      = Protocol.byteToBits data.length := by
    rw [show g ++ (PREAMBLE ++ (START_MARKER ++
        (Protocol.byteToBits data.length ++
          (data.flatMap Protocol.byteToBits ++ Protocol.byteToBits cbyte))))
      = (g ++ PREAMBLE ++ START_MARKER) ++
        (Protocol.byteToBits data.length ++
          (data.flatMap Protocol.byteToBits ++ Protocol.byteToBits cbyte))
      from by simp]
    rw [List.drop_left' (show (g ++ PREAMBLE ++ START_MARKER).length
      = g.length + 8 + 8 from by simp [PREAMBLE, START_MARKER])]
    rw [List.take_left' (length_byteToBits data.length)]
  have hD : Protocol.readDataBytes
      (g ++ (PREAMBLE ++ (START_MARKER ++
        (Protocol.byteToBits data.length ++
          (data.flatMap Protocol.byteToBits ++ Protocol.byteToBits cbyte)))))
      (g.length + 8 + 8 + 8) data.length = some data := by
    have h5 := readDataBytes_full data
      (g ++ PREAMBLE ++ START_MARKER ++ Protocol.byteToBits data.length)
      (Protocol.byteToBits cbyte) hdata
    rw [show (g ++ PREAMBLE ++ START_MARKER ++ Protocol.byteToBits data.length) ++
        (data.flatMap Protocol.byteToBits ++ Protocol.byteToBits cbyte)
      = g ++ (PREAMBLE ++ (START_MARKER ++
        (Protocol.byteToBits data.length ++
          (data.flatMap Protocol.byteToBits ++ Protocol.byteToBits cbyte))))
      from by simp] at h5
    rw [show (g ++ PREAMBLE ++ START_MARKER ++ Protocol.byteToBits data.length).length
      = g.length + 8 + 8 + 8
      from by simp [PREAMBLE, START_MARKER, length_byteToBits]] at h5
    exact h5
  have hE : List.take 8 (List.drop (g.length + 8 + 8 + 8 + 8 * data.length)
      (g ++ (PREAMBLE ++ (START_MARKER ++
        (Protocol.byteToBits data.length ++
          (data.flatMap Protocol.byteToBits ++ Protocol.byteToBits cbyte))))))
      = Protocol.byteToBits cbyte := by
    rw [show g ++ (PREAMBLE ++ (START_MARKER ++
        (Protocol.byteToBits data.length ++
          (data.flatMap Protocol.byteToBits ++ Protocol.byteToBits cbyte))))
      = (g ++ PREAMBLE ++ START_MARKER ++ Protocol.byteToBits data.length ++
          data.flatMap Protocol.byteToBits) ++ Protocol.byteToBits cbyte
      from by simp]
    rw [List.drop_left' (show (g ++ PREAMBLE ++ START_MARKER ++
        Protocol.byteToBits data.length ++ data.flatMap Protocol.byteToBits).length
      = g.length + 8 + 8 + 8 + 8 * data.length
      from by
        simp only [List.length_append, length_flatMap_byteToBits,
          length_byteToBits, PREAMBLE, START_MARKER, List.length_cons,
          List.length_nil])]
    exact List.take_of_length_le (by rw [length_byteToBits])
  have h88 : ¬(8 < 8) := by omega
  simp only [Protocol.decode, hfsm]
  rw [hC, length_byteToBits, bitsToNumber_byteToBits data.length hlen]
  rw [if_neg h88]
  by_cases hbig : data.length > MAX_MESSAGE_BYTES ∨ data.length = 0
  · rw [if_pos hbig, if_pos hbig]
  · rw [if_neg hbig, if_neg hbig]
    rw [hD]
    simp only []
    rw [hE, length_byteToBits, bitsToNumber_byteToBits cbyte hc]
    rw [if_neg h88]

/-! ## Encode and round trips -/

theorem encode_eq_some (m : List Char) (h2 : (utf8Encode m).length ≤ 200) :
    Protocol.encode m = some (PREAMBLE ++ START_MARKER ++
      Protocol.byteToBits (utf8Encode m).length ++
      (utf8Encode m).flatMap Protocol.byteToBits ++
      Protocol.byteToBits (Protocol.calculateChecksum (utf8Encode m))) := by
  simp only [Protocol.encode]
  rw [if_neg (show ¬((utf8Encode m).length > MAX_MESSAGE_BYTES) from by
    simp only [MAX_MESSAGE_BYTES]; omega)]

theorem decode_garbage_encode (g : List Nat) (m : List Char)
    (h1 : 1 ≤ (utf8Encode m).length) (h2 : (utf8Encode m).length ≤ 200)
    (hg : Protocol.findStartMarker (g ++ PREAMBLE) = none) :
    (Protocol.encode m).map (fun bits => Protocol.decode (g ++ bits)) =
      some (some m) := by
  have hlt := utf8Encode_lt m
  have hcs := calculateChecksum_lt (utf8Encode m) hlt
  rw [encode_eq_some m h2]
  have hdec : Protocol.decode (g ++ (PREAMBLE ++ (START_MARKER ++
      (Protocol.byteToBits (utf8Encode m).length ++
        ((utf8Encode m).flatMap Protocol.byteToBits ++
          Protocol.byteToBits (Protocol.calculateChecksum (utf8Encode m))))))) = some m := by
    rw [decode_frame g (utf8Encode m)
      (Protocol.calculateChecksum (utf8Encode m)) hg hlt hcs (by omega)]
    rw [if_neg (show ¬((utf8Encode m).length > MAX_MESSAGE_BYTES ∨
        (utf8Encode m).length = 0) from by
      simp only [MAX_MESSAGE_BYTES]; omega)]
    rw [if_neg (show ¬(Protocol.calculateChecksum (utf8Encode m) ≠
        Protocol.calculateChecksum (utf8Encode m)) from by simp)]
    exact utf8Decode_utf8Encode m
  simp [hdec]

/-- Flip the last bit of a bit sequence (the checksum sensitivity test
action of the spec). -/
def flipLast (bits : List Nat) : List Nat :=
  bits.dropLast ++ [1 - bits.getLastD 0]

theorem flipLast_concat (l : List Nat) (x : Nat) :
    flipLast (l ++ [x]) = l ++ [1 - x] := by
  simp [flipLast]

theorem flipLast_byteToBits (l : List Nat) (cs : Nat) (hcs : cs < 256) :
    ∃ cs2, cs2 < 256 ∧ cs2 ≠ cs ∧
      flipLast (l ++ Protocol.byteToBits cs) = l ++ Protocol.byteToBits cs2 := by
  by_cases hp : cs % 2 = 0
  · refine ⟨cs + 1, by omega, by omega, ?_⟩
    rw [byteToBits_eq cs, byteToBits_eq (cs + 1)]
    rw [show l ++ [cs / 128 % 2, cs / 64 % 2, cs / 32 % 2, cs / 16 % 2,
        cs / 8 % 2, cs / 4 % 2, cs / 2 % 2, cs % 2]
      = (l ++ [cs / 128 % 2, cs / 64 % 2, cs / 32 % 2, cs / 16 % 2,
        cs / 8 % 2, cs / 4 % 2, cs / 2 % 2]) ++ [cs % 2] from by simp]
    rw [flipLast_concat]
    simp
    omega
  · refine ⟨cs - 1, by omega, by omega, ?_⟩
    rw [byteToBits_eq cs, byteToBits_eq (cs - 1)]
    rw [show l ++ [cs / 128 % 2, cs / 64 % 2, cs / 32 % 2, cs / 16 % 2,
        cs / 8 % 2, cs / 4 % 2, cs / 2 % 2, cs % 2]
      = (l ++ [cs / 128 % 2, cs / 64 % 2, cs / 32 % 2, cs / 16 % 2,
        cs / 8 % 2, cs / 4 % 2, cs / 2 % 2]) ++ [cs % 2] from by simp]
    rw [flipLast_concat]
    simp
    omega

theorem decode_flipLast (m : List Char) (bits : List Nat)
    (henc : Protocol.encode m = some bits) :
    Protocol.decode (flipLast bits) = none := by
  have hlt := utf8Encode_lt m
  have hcs := calculateChecksum_lt (utf8Encode m) hlt
  have h2 : (utf8Encode m).length ≤ 200 := by
    by_contra hgt
    rw [show Protocol.encode m = none from by
      simp only [Protocol.encode]
      rw [if_pos (show (utf8Encode m).length > MAX_MESSAGE_BYTES from by
        simp only [MAX_MESSAGE_BYTES]; omega)]] at henc
    simp at henc
  rw [encode_eq_some m h2] at henc
  have hbits : bits = PREAMBLE ++ START_MARKER ++
      Protocol.byteToBits (utf8Encode m).length ++
      (utf8Encode m).flatMap Protocol.byteToBits ++
      Protocol.byteToBits (Protocol.calculateChecksum (utf8Encode m)) := by
    cases henc; rfl
  subst hbits
  obtain ⟨cs2, hcs2, hne, hflip⟩ := flipLast_byteToBits
    (PREAMBLE ++ START_MARKER ++ Protocol.byteToBits (utf8Encode m).length ++
      (utf8Encode m).flatMap Protocol.byteToBits)
    (Protocol.calculateChecksum (utf8Encode m)) hcs
  rw [hflip]
  rw [show PREAMBLE ++ START_MARKER ++ Protocol.byteToBits (utf8Encode m).length ++
      (utf8Encode m).flatMap Protocol.byteToBits ++ Protocol.byteToBits cs2
    = ([] : List Nat) ++ (PREAMBLE ++ (START_MARKER ++
      (Protocol.byteToBits (utf8Encode m).length ++
        ((utf8Encode m).flatMap Protocol.byteToBits ++
          Protocol.byteToBits cs2)))) from by simp]
  rw [decode_frame [] (utf8Encode m) cs2 (by decide) hlt hcs2 (by omega)]
  by_cases hbig : (utf8Encode m).length > MAX_MESSAGE_BYTES ∨
      (utf8Encode m).length = 0
  · rw [if_pos hbig]
  · rw [if_neg hbig, if_pos hne]

/-! ## Claim C1 -/

/-- C1 counterexample: the empty message encodes successfully (0 bytes
is within the limit) but decoding its own encoding yields none, because
decode rejects a zero length field; so the round trip fails for the
empty string even though its UTF-8 byte length is at most 200. -/
theorem C1_empty_roundtrip_fails :
    (Protocol.encode []).bind Protocol.decode = none := by decide

/-- C1 (amended): for every text whose UTF-8 byte length is between 1
and 200, decoding the encoding returns the text unchanged; this covers
ASCII, multi-byte UTF-8 and 4-byte code points, but not the empty
string. -/
theorem C1_roundTrip (m : List Char) (h1 : 1 ≤ (utf8Encode m).length)
    (h2 : (utf8Encode m).length ≤ 200) :
    (Protocol.encode m).bind Protocol.decode = some m := by
  have h := decode_garbage_encode [] m h1 h2 (by decide)
  rw [encode_eq_some m h2] at h ⊢
  simp at h
  simpa using h

/-- C1 witness: the round trip evaluated on a message with a 3-byte
and a 4-byte code point. -/
theorem C1_roundTrip_witness :
    1 ≤ (utf8Encode ['こ', '😀']).length ∧
      (utf8Encode ['こ', '😀']).length ≤ 200 ∧
      (Protocol.encode ['こ', '😀']).bind Protocol.decode = some ['こ', '😀'] :=
  ⟨by decide, by decide, C1_roundTrip ['こ', '😀'] (by decide) (by decide)⟩

/-! ## Claim C5 -/

/-- C5: encode fails (raises MessageTooLong, embedded as none) exactly
when the UTF-8 byte length exceeds 200; it fails on a 201-byte ASCII
string and succeeds on a 200-byte one; canEncode returns true exactly
when the byte length is at most 200. -/
theorem C5_length_bound :
    (∀ m : List Char, Protocol.encode m = none ↔ 200 < Protocol.getByteLength m) ∧
      (∀ m : List Char, Protocol.canEncode m = true ↔ Protocol.getByteLength m ≤ 200) ∧
      Protocol.encode (List.replicate 201 'a') = none ∧
      (Protocol.encode (List.replicate 200 'a')).isSome = true := by
  refine ⟨?_, ?_, ?_, ?_⟩
  · intro m
    simp only [Protocol.encode, Protocol.getByteLength, MAX_MESSAGE_BYTES]
    split_ifs with h
    · simp; omega
    · simp; omega
  · intro m
    simp [Protocol.canEncode, Protocol.getByteLength, MAX_MESSAGE_BYTES]
  · decide
  · decide

/-! ## Claim C7 -/

/-- C7 counterexample: prepending the garbage bits 11111111 to a valid
encoding of the message Test makes decode return none instead of the
message — the garbage run is itself taken for the start marker, so the
claim fails for arbitrary garbage prefixes. -/
theorem C7_marker_garbage_fails :
    (Protocol.encode ['T', 'e', 's', 't']).map
      (fun bits => Protocol.decode (List.replicate 8 1 ++ bits)) = some none := by
  decide

/-- C7 (amended): decode recovers the message when bits are prepended
before a validly encoded frame, provided the prepended bits followed by
the preamble contain no run of 8 consecutive 1-bits (so no spurious
start marker precedes the true one) and the message is non-empty; the
marker is located mid-buffer by scanning for the first run of 8
consecutive 1-bits. -/
theorem C7_garbage_prefix (g : List Nat) (m : List Char)
    (h1 : 1 ≤ (utf8Encode m).length) (h2 : (utf8Encode m).length ≤ 200)
    (hg : Protocol.findStartMarker (g ++ PREAMBLE) = none) :
    (Protocol.encode m).map (fun bits => Protocol.decode (g ++ bits)) =
      some (some m) :=
  decode_garbage_encode g m h1 h2 hg

/-- C7 witness: the spec example, garbage 01001 before an encoding of
Test. -/
theorem C7_garbage_prefix_witness :
    1 ≤ (utf8Encode ['T', 'e', 's', 't']).length ∧
      (utf8Encode ['T', 'e', 's', 't']).length ≤ 200 ∧
      Protocol.findStartMarker ([0, 1, 0, 0, 1] ++ PREAMBLE) = none ∧
      (Protocol.encode ['T', 'e', 's', 't']).map
        (fun bits => Protocol.decode ([0, 1, 0, 0, 1] ++ bits)) =
        some (some ['T', 'e', 's', 't']) :=
  ⟨by decide, by decide, by decide,
    C7_garbage_prefix [0, 1, 0, 0, 1] ['T', 'e', 's', 't']
      (by decide) (by decide) (by decide)⟩

/-! ## Claim C6 -/

/-- C6: decode is total (a plain function into an option, never
raising) and returns none on every rejection path: empty input,
sixteen zero bits, no run of 8 consecutive 1-bits, truncated length
field, declared length 0 or above 200, truncated data bytes, truncated
checksum byte, checksum mismatch, invalid UTF-8 data, and flipping the
final bit of any valid encoding. -/
theorem C6_decode_total_rejections :
    Protocol.decode [] = none ∧
    Protocol.decode (List.replicate 16 0) = none ∧
    (∀ bits : List Nat, Protocol.findStartMarker bits = none →
      Protocol.decode bits = none) ∧
    (∀ (bits : List Nat) (i : Nat), Protocol.findStartMarker bits = some i →
      (List.take 8 (List.drop (i + 8) bits)).length < 8 →
      Protocol.decode bits = none) ∧
    (∀ (bits : List Nat) (i : Nat), Protocol.findStartMarker bits = some i →
      (Protocol.bitsToNumber (List.take 8 (List.drop (i + 8) bits)) >
          MAX_MESSAGE_BYTES ∨
        Protocol.bitsToNumber (List.take 8 (List.drop (i + 8) bits)) = 0) →
      Protocol.decode bits = none) ∧
    (∀ (bits : List Nat) (i : Nat), Protocol.findStartMarker bits = some i →
      Protocol.readDataBytes bits (i + 8 + 8)
        (Protocol.bitsToNumber (List.take 8 (List.drop (i + 8) bits))) = none →
      Protocol.decode bits = none) ∧
    (∀ (bits : List Nat) (i : Nat) (dataBytes : List Nat),
      Protocol.findStartMarker bits = some i →
      Protocol.readDataBytes bits (i + 8 + 8)
        (Protocol.bitsToNumber (List.take 8 (List.drop (i + 8) bits))) =
        some dataBytes →
      (List.take 8 (List.drop (i + 8 + 8 +
        8 * Protocol.bitsToNumber (List.take 8 (List.drop (i + 8) bits)))
          bits)).length < 8 →
      Protocol.decode bits = none) ∧
    (∀ (bits : List Nat) (i : Nat) (dataBytes : List Nat),
      Protocol.findStartMarker bits = some i →
      Protocol.readDataBytes bits (i + 8 + 8)
        (Protocol.bitsToNumber (List.take 8 (List.drop (i + 8) bits))) =
        some dataBytes →
      Protocol.bitsToNumber (List.take 8 (List.drop (i + 8 + 8 +
        8 * Protocol.bitsToNumber (List.take 8 (List.drop (i + 8) bits))) bits)) ≠
        Protocol.calculateChecksum dataBytes →
      Protocol.decode bits = none) ∧
    (∀ (bits : List Nat) (i : Nat) (dataBytes : List Nat),
      Protocol.findStartMarker bits = some i →
      Protocol.readDataBytes bits (i + 8 + 8)
        (Protocol.bitsToNumber (List.take 8 (List.drop (i + 8) bits))) =
        some dataBytes →
      utf8Decode dataBytes = none →
      Protocol.decode bits = none) ∧
    (∀ (m : List Char) (bits : List Nat), Protocol.encode m = some bits →
      Protocol.decode (flipLast bits) = none) := by
  refine ⟨by decide, by decide, ?_, ?_, ?_, ?_, ?_, ?_, ?_, ?_⟩
  · intro bits h
    simp [Protocol.decode, h]
  · intro bits i h htr
    simp only [Protocol.decode, h]
    rw [if_pos htr]
  · intro bits i h hbad
    simp only [Protocol.decode, h]
    by_cases hl : (List.take 8 (List.drop (i + 8) bits)).length < 8
    · rw [if_pos hl]
    · rw [if_neg hl, if_pos hbad]
  · intro bits i h hrd
    simp only [Protocol.decode, h]
    by_cases hl : (List.take 8 (List.drop (i + 8) bits)).length < 8
    · rw [if_pos hl]
    · rw [if_neg hl]
      by_cases hbad : Protocol.bitsToNumber (List.take 8 (List.drop (i + 8) bits)) >
          MAX_MESSAGE_BYTES ∨
          Protocol.bitsToNumber (List.take 8 (List.drop (i + 8) bits)) = 0
      · rw [if_pos hbad]
      · rw [if_neg hbad, hrd]
  · intro bits i dataBytes h hrd htr
    simp only [Protocol.decode, h]
    by_cases hl : (List.take 8 (List.drop (i + 8) bits)).length < 8
    · rw [if_pos hl]
    · rw [if_neg hl]
      by_cases hbad : Protocol.bitsToNumber (List.take 8 (List.drop (i + 8) bits)) >
          MAX_MESSAGE_BYTES ∨
          Protocol.bitsToNumber (List.take 8 (List.drop (i + 8) bits)) = 0
      · rw [if_pos hbad]
      · rw [if_neg hbad, hrd]
        simp only []
        rw [if_pos htr]
  · intro bits i dataBytes h hrd hck
    simp only [Protocol.decode, h]
    by_cases hl : (List.take 8 (List.drop (i + 8) bits)).length < 8
    · rw [if_pos hl]
    · rw [if_neg hl]
      by_cases hbad : Protocol.bitsToNumber (List.take 8 (List.drop (i + 8) bits)) >
          MAX_MESSAGE_BYTES ∨
          Protocol.bitsToNumber (List.take 8 (List.drop (i + 8) bits)) = 0
      · rw [if_pos hbad]
      · rw [if_neg hbad, hrd]
        simp only []
        by_cases htr : (List.take 8 (List.drop (i + 8 + 8 +
            8 * Protocol.bitsToNumber (List.take 8 (List.drop (i + 8) bits)))
              bits)).length < 8
        · rw [if_pos htr]
        · rw [if_neg htr, if_pos hck]
  · intro bits i dataBytes h hrd hutf
    simp only [Protocol.decode, h]
    by_cases hl : (List.take 8 (List.drop (i + 8) bits)).length < 8
    · rw [if_pos hl]
    · rw [if_neg hl]
      by_cases hbad : Protocol.bitsToNumber (List.take 8 (List.drop (i + 8) bits)) >
          MAX_MESSAGE_BYTES ∨
          Protocol.bitsToNumber (List.take 8 (List.drop (i + 8) bits)) = 0
      · rw [if_pos hbad]
      · rw [if_neg hbad, hrd]
        simp only []
        by_cases htr : (List.take 8 (List.drop (i + 8 + 8 +
            8 * Protocol.bitsToNumber (List.take 8 (List.drop (i + 8) bits)))
              bits)).length < 8
        · rw [if_pos htr]
        · rw [if_neg htr]
          by_cases hck : Protocol.bitsToNumber (List.take 8 (List.drop (i + 8 + 8 +
              8 * Protocol.bitsToNumber (List.take 8 (List.drop (i + 8) bits))) bits)) ≠
              Protocol.calculateChecksum dataBytes
          · rw [if_pos hck]
          · rw [if_neg hck]
            exact hutf
  · intro m bits h
    exact decode_flipLast m bits h

/-- C6 witness: the rejection paths evaluated concretely — flipping
the final bit of the encoding of the message A, and a three-bit input
with no marker. -/
theorem C6_decode_total_rejections_witness :
    Protocol.decode (flipLast ((Protocol.encode ['A']).getD [])) = none ∧
      Protocol.decode [0, 0, 1] = none :=
  ⟨C6_decode_total_rejections.2.2.2.2.2.2.2.2.2 ['A']
      ((Protocol.encode ['A']).getD []) (by decide),
    C6_decode_total_rejections.2.2.1 [0, 0, 1] (by decide)⟩

/-! ## Claim C8 -/

theorem truthy_mod2 (x : Nat) : (if x % 2 ≠ 0 then (1 : Nat) else 0) = x % 2 := by
  by_cases h : x % 2 = 0
  · simp [h]
  · simp [h]; omega

theorem frameToCells_pair (a b : Nat) :
    GridProtocol.frameToCells [a, b] =
      Protocol.byteToBits a ++ Protocol.byteToBits b := rfl

theorem cellsToFrame_mod2 (x0 x1 x2 x3 x4 x5 x6 x7 x8 x9 x10 x11 x12 x13 x14 x15 : Nat) :
    GridProtocol.cellsToFrame [x0 % 2, x1 % 2, x2 % 2, x3 % 2, x4 % 2, x5 % 2, x6 % 2, x7 % 2, x8 % 2, x9 % 2, x10 % 2, x11 % 2, x12 % 2, x13 % 2, x14 % 2, x15 % 2] =
      [(2 * (2 * (2 * (2 * (2 * (2 * (2 * (2 * (0 : Nat) + x0 % 2) + x1 % 2) + x2 % 2) + x3 % 2) + x4 % 2) + x5 % 2) + x6 % 2) + x7 % 2), (2 * (2 * (2 * (2 * (2 * (2 * (2 * (2 * (0 : Nat) + x8 % 2) + x9 % 2) + x10 % 2) + x11 % 2) + x12 % 2) + x13 % 2) + x14 % 2) + x15 % 2)] := by
  have hcf : GridProtocol.cellsToFrame [x0 % 2, x1 % 2, x2 % 2, x3 % 2, x4 % 2, x5 % 2, x6 % 2, x7 % 2, x8 % 2, x9 % 2, x10 % 2, x11 % 2, x12 % 2, x13 % 2, x14 % 2, x15 % 2] =
      [(((((((((((((((((0 : Nat) <<< 1) ||| (if x0 % 2 ≠ 0 then (1 : Nat) else 0)) <<< 1) ||| (if x1 % 2 ≠ 0 then (1 : Nat) else 0)) <<< 1) ||| (if x2 % 2 ≠ 0 then (1 : Nat) else 0)) <<< 1) ||| (if x3 % 2 ≠ 0 then (1 : Nat) else 0)) <<< 1) ||| (if x4 % 2 ≠ 0 then (1 : Nat) else 0)) <<< 1) ||| (if x5 % 2 ≠ 0 then (1 : Nat) else 0)) <<< 1) ||| (if x6 % 2 ≠ 0 then (1 : Nat) else 0)) <<< 1) ||| (if x7 % 2 ≠ 0 then (1 : Nat) else 0)), (((((((((((((((((0 : Nat) <<< 1) ||| (if x8 % 2 ≠ 0 then (1 : Nat) else 0)) <<< 1) ||| (if x9 % 2 ≠ 0 then (1 : Nat) else 0)) <<< 1) ||| (if x10 % 2 ≠ 0 then (1 : Nat) else 0)) <<< 1) ||| (if x11 % 2 ≠ 0 then (1 : Nat) else 0)) <<< 1) ||| (if x12 % 2 ≠ 0 then (1 : Nat) else 0)) <<< 1) ||| (if x13 % 2 ≠ 0 then (1 : Nat) else 0)) <<< 1) ||| (if x14 % 2 ≠ 0 then (1 : Nat) else 0)) <<< 1) ||| (if x15 % 2 ≠ 0 then (1 : Nat) else 0))] := rfl
  rw [hcf]
  simp only [truthy_mod2, shl1_or_mod2]

set_option maxHeartbeats 2000000 in
/-- C8: frameToCells and cellsToFrame are mutually inverse —
rebuilding the frame from the cells of a 2-byte frame returns the
frame, rebuilding the cells from the frame of a 16-element 0/1 cell
array returns the array, and the sample frame 10101010 01010101 maps
bits 7..0 of the high byte to cells 0..7 and of the low byte to cells
8..15. -/
theorem C8_grid_cells_frame :
    (∀ hb lb : Nat, hb < 256 → lb < 256 →
      GridProtocol.cellsToFrame (GridProtocol.frameToCells [hb, lb]) = [hb, lb]) ∧
    (∀ c0 c1 c2 c3 c4 c5 c6 c7 c8 c9 c10 c11 c12 c13 c14 c15 : Nat,
      (∀ x ∈ [c0, c1, c2, c3, c4, c5, c6, c7, c8, c9, c10, c11, c12, c13, c14, c15], x ≤ 1) →
      GridProtocol.frameToCells (GridProtocol.cellsToFrame
        [c0, c1, c2, c3, c4, c5, c6, c7, c8, c9, c10, c11, c12, c13, c14, c15]) = [c0, c1, c2, c3, c4, c5, c6, c7, c8, c9, c10, c11, c12, c13, c14, c15]) ∧
    GridProtocol.frameToCells [0xAA, 0x55] =
      [1, 0, 1, 0, 1, 0, 1, 0, 0, 1, 0, 1, 0, 1, 0, 1] := by
  refine ⟨?_, ?_, by decide⟩
  · intro hb lb hhb hlb
    rw [frameToCells_pair, byteToBits_eq, byteToBits_eq]
    simp only [List.cons_append, List.nil_append]
    rw [cellsToFrame_mod2 (hb / 128) (hb / 64) (hb / 32) (hb / 16) (hb / 8) (hb / 4) (hb / 2) hb (lb / 128) (lb / 64) (lb / 32) (lb / 16) (lb / 8) (lb / 4) (lb / 2) lb]
    simp only [List.cons.injEq, and_true]
    omega
  · intro c0 c1 c2 c3 c4 c5 c6 c7 c8 c9 c10 c11 c12 c13 c14 c15 hball
    simp only [List.mem_cons, List.not_mem_nil, or_false, forall_eq_or_imp,
      forall_eq] at hball
    obtain ⟨h0, h1, h2, h3, h4, h5, h6, h7, h8, h9, h10, h11, h12, h13, h14, h15⟩ := hball
    rw [show c0 = c0 % 2 from (Nat.mod_eq_of_lt (by omega)).symm]
    rw [show c1 = c1 % 2 from (Nat.mod_eq_of_lt (by omega)).symm]
    rw [show c2 = c2 % 2 from (Nat.mod_eq_of_lt (by omega)).symm]
    rw [show c3 = c3 % 2 from (Nat.mod_eq_of_lt (by omega)).symm]
    rw [show c4 = c4 % 2 from (Nat.mod_eq_of_lt (by omega)).symm]
    rw [show c5 = c5 % 2 from (Nat.mod_eq_of_lt (by omega)).symm]
    rw [show c6 = c6 % 2 from (Nat.mod_eq_of_lt (by omega)).symm]
    rw [show c7 = c7 % 2 from (Nat.mod_eq_of_lt (by omega)).symm]
    rw [show c8 = c8 % 2 from (Nat.mod_eq_of_lt (by omega)).symm]
    rw [show c9 = c9 % 2 from (Nat.mod_eq_of_lt (by omega)).symm]
    rw [show c10 = c10 % 2 from (Nat.mod_eq_of_lt (by omega)).symm]
    rw [show c11 = c11 % 2 from (Nat.mod_eq_of_lt (by omega)).symm]
    rw [show c12 = c12 % 2 from (Nat.mod_eq_of_lt (by omega)).symm]
    rw [show c13 = c13 % 2 from (Nat.mod_eq_of_lt (by omega)).symm]
    rw [show c14 = c14 % 2 from (Nat.mod_eq_of_lt (by omega)).symm]
    rw [show c15 = c15 % 2 from (Nat.mod_eq_of_lt (by omega)).symm]
    rw [cellsToFrame_mod2 c0 c1 c2 c3 c4 c5 c6 c7 c8 c9 c10 c11 c12 c13 c14 c15]
    rw [frameToCells_pair, byteToBits_eq, byteToBits_eq]
    simp only [List.cons_append, List.nil_append, List.cons.injEq, and_true]
    omega

/-! ## Grid payload framing -/

theorem flatten_chunk : ∀ l : List Nat, l.length % 2 = 0 →
    GridProtocol.flattenBytes (GridProtocol.chunkPairs l) = l
  | [], _ => rfl
  | [a], h => by simp at h
  | a :: b :: rest, h => by
    have ih := flatten_chunk rest (by simp at h; omega)
    simp only [GridProtocol.chunkPairs, GridProtocol.flattenBytes,
      List.flatMap_cons] at ih ⊢
    simp only [List.getD, List.get?_eq_getElem?] at ih ⊢
    simp [ih]

theorem chunkPairs_ne_nil (l : List Nat) (h : l ≠ []) :
    GridProtocol.chunkPairs l ≠ [] := by
  cases l with
  | nil => simp at h
  | cons a t =>
    cases t with
    | nil => simp [GridProtocol.chunkPairs]
    | cons b r => simp [GridProtocol.chunkPairs]

theorem getD_cons_at_length (n : Nat) (data tail : List Nat) (c : Nat) :
    ((n :: data) ++ (c :: tail)).getD (1 + data.length) 0 = c := by
  simp only [List.getD, List.get?_eq_getElem?]
  rw [List.getElem?_append_right (by simp; omega)]
  rw [show 1 + data.length - (n :: data).length = 0 from by simp; omega]
  simp

theorem grid_decode_payload (data pad : List Nat)
    (h1 : 1 ≤ data.length) (h2 : data.length ≤ 200)
    (hpad : pad = [] ∨ pad = [0])
    (heven : (data.length + 2 + pad.length) % 2 = 0) :
    GridProtocol.decode (GridProtocol.chunkPairs
      (data.length :: (data ++ (GridProtocol.calculateChecksum data :: pad)))) =
      utf8Decode data := by
  have hPne : (data.length :: (data ++ (GridProtocol.calculateChecksum data ::
      pad))) ≠ [] := by simp
  have hPlen : (data.length :: (data ++ (GridProtocol.calculateChecksum data ::
      pad))).length = data.length + 2 + pad.length := by
    simp
    omega
  have hfr : GridProtocol.flattenBytes (GridProtocol.chunkPairs
      (data.length :: (data ++ (GridProtocol.calculateChecksum data :: pad)))) =
      data.length :: (data ++ (GridProtocol.calculateChecksum data :: pad)) :=
    flatten_chunk _ (by rw [hPlen]; exact heven)
  have hfrne : ¬((GridProtocol.chunkPairs (data.length :: (data ++
      (GridProtocol.calculateChecksum data :: pad)))).length = 0) := by
    simpa [List.length_eq_zero] using chunkPairs_ne_nil _ hPne
  have hget0 : (data.length :: (data ++ (GridProtocol.calculateChecksum data ::
      pad))).getD 0 0 = data.length := rfl
  have hgetck : (data.length :: (data ++ (GridProtocol.calculateChecksum data ::
      pad))).getD (1 + data.length) 0 = GridProtocol.calculateChecksum data :=
    getD_cons_at_length data.length data pad
      (GridProtocol.calculateChecksum data)
  have hdrop : (data.length :: (data ++ (GridProtocol.calculateChecksum data ::
      pad))).drop 1 = data ++ (GridProtocol.calculateChecksum data :: pad) := rfl
  have htake : (data ++ (GridProtocol.calculateChecksum data :: pad)).take
      data.length = data := List.take_left' rfl
  have hexp : ¬((data.length :: (data ++ (GridProtocol.calculateChecksum data ::
      pad))).length <
      (if (data.length + 2) % 2 = 0 then data.length + 2 else data.length + 2 + 1)) := by
    rw [hPlen]
    rcases hpad with rfl | rfl
    · simp only [List.length_nil] at heven ⊢
      rw [if_pos (by omega)]
      omega
    · simp only [List.length_cons, List.length_nil] at heven ⊢
      rw [if_neg (by omega)]
      omega
  simp only [GridProtocol.decode]
  rw [if_neg hfrne, hfr, hget0]
  rw [if_neg (show ¬(data.length = 0 ∨ data.length > MAX_MESSAGE_BYTES) from by
    simp only [MAX_MESSAGE_BYTES]; omega)]
  rw [if_neg hexp]
  rw [hdrop, htake, hgetck]
  rw [if_neg (show ¬(GridProtocol.calculateChecksum data ≠
    GridProtocol.calculateChecksum data) from by simp)]

/-! ## Claim C10 -/

/-- C10: the grid protocol round-trips every non-empty message of at
most 200 UTF-8 bytes, including when the payload length is odd and a
zero padding byte is appended. -/
theorem C10_grid_roundTrip (m : List Char) (h1 : 1 ≤ (utf8Encode m).length)
    (h2 : (utf8Encode m).length ≤ 200) :
    (GridProtocol.encode m).bind GridProtocol.decode = some m := by
  have henc : GridProtocol.encode m = some (GridProtocol.chunkPairs
      (if ((utf8Encode m).length :: (utf8Encode m ++
          [GridProtocol.calculateChecksum (utf8Encode m)])).length % 2 ≠ 0
        then ((utf8Encode m).length :: (utf8Encode m ++
          [GridProtocol.calculateChecksum (utf8Encode m)])) ++ [0]
        else (utf8Encode m).length :: (utf8Encode m ++
          [GridProtocol.calculateChecksum (utf8Encode m)]))) := by
    simp only [GridProtocol.encode]
    rw [if_neg (show ¬((utf8Encode m).length > MAX_MESSAGE_BYTES) from by
      simp only [MAX_MESSAGE_BYTES]; omega)]
    rfl
  rw [henc]
  simp only [Option.some_bind]
  by_cases hpar : ((utf8Encode m).length + 2) % 2 = 0
  · rw [if_neg (show ¬(((utf8Encode m).length :: (utf8Encode m ++
        [GridProtocol.calculateChecksum (utf8Encode m)])).length % 2 ≠ 0) from by
      simp only [List.length_cons, List.length_append, List.length_nil]
      omega)]
    rw [grid_decode_payload (utf8Encode m) [] h1 h2 (Or.inl rfl)
      (by simp only [List.length_nil]; omega)]
    exact utf8Decode_utf8Encode m
  · rw [if_pos (show ((utf8Encode m).length :: (utf8Encode m ++
        [GridProtocol.calculateChecksum (utf8Encode m)])).length % 2 ≠ 0 from by
      simp only [List.length_cons, List.length_append, List.length_nil]
      omega)]
    rw [show ((utf8Encode m).length :: (utf8Encode m ++
        [GridProtocol.calculateChecksum (utf8Encode m)])) ++ [0]
      = (utf8Encode m).length :: (utf8Encode m ++
        (GridProtocol.calculateChecksum (utf8Encode m) :: [0])) from by simp]
    rw [grid_decode_payload (utf8Encode m) [0] h1 h2 (Or.inr rfl)
      (by simp only [List.length_cons, List.length_nil]; omega)]
    exact utf8Decode_utf8Encode m

/-- C10 witness: the grid round trip on the message A, whose payload
has odd length and receives a padding byte. -/
theorem C10_grid_roundTrip_witness :
    1 ≤ (utf8Encode ['A']).length ∧ (utf8Encode ['A']).length ≤ 200 ∧
      (GridProtocol.encode ['A']).bind GridProtocol.decode = some ['A'] :=
  ⟨by decide, by decide, C10_grid_roundTrip ['A'] (by decide) (by decide)⟩

/-! ## Claim C9 -/

/-- C9: GridProtocol.decode rejection paths — none for an empty frame
list; after flattening the frames to bytes, none if the first byte is 0
or above 200, none if fewer bytes are available than the declared
length plus 2 rounded up to even, none if the byte at offset 1 plus the
length differs from the XOR of the data bytes, and none if the data
bytes are not valid UTF-8. -/
theorem C9_grid_decode_rejections :
    GridProtocol.decode [] = none ∧
    (∀ frames : List (List Nat), frames ≠ [] →
      ((GridProtocol.flattenBytes frames).getD 0 0 = 0 ∨
        (GridProtocol.flattenBytes frames).getD 0 0 > MAX_MESSAGE_BYTES) →
      GridProtocol.decode frames = none) ∧
    (∀ frames : List (List Nat), frames ≠ [] →
      (GridProtocol.flattenBytes frames).length <
        (if ((GridProtocol.flattenBytes frames).getD 0 0 + 2) % 2 = 0
          then (GridProtocol.flattenBytes frames).getD 0 0 + 2
          else (GridProtocol.flattenBytes frames).getD 0 0 + 2 + 1) →
      GridProtocol.decode frames = none) ∧
    (∀ frames : List (List Nat), frames ≠ [] →
      (GridProtocol.flattenBytes frames).getD
          (1 + (GridProtocol.flattenBytes frames).getD 0 0) 0 ≠
        GridProtocol.calculateChecksum
          (((GridProtocol.flattenBytes frames).drop 1).take
            ((GridProtocol.flattenBytes frames).getD 0 0)) →
      GridProtocol.decode frames = none) ∧
    (∀ frames : List (List Nat), frames ≠ [] →
      utf8Decode (((GridProtocol.flattenBytes frames).drop 1).take
        ((GridProtocol.flattenBytes frames).getD 0 0)) = none →
      GridProtocol.decode frames = none) := by
  refine ⟨by decide, ?_, ?_, ?_, ?_⟩
  · intro frames hne hbad
    simp only [GridProtocol.decode]
    rw [if_neg (by simpa [List.length_eq_zero] using hne), if_pos hbad]
  · intro frames hne hlt
    simp only [GridProtocol.decode]
    rw [if_neg (by simpa [List.length_eq_zero] using hne)]
    by_cases hbad : (GridProtocol.flattenBytes frames).getD 0 0 = 0 ∨
        (GridProtocol.flattenBytes frames).getD 0 0 > MAX_MESSAGE_BYTES
    · rw [if_pos hbad]
    · rw [if_neg hbad, if_pos hlt]
  · intro frames hne hck
    simp only [GridProtocol.decode]
    rw [if_neg (by simpa [List.length_eq_zero] using hne)]
    by_cases hbad : (GridProtocol.flattenBytes frames).getD 0 0 = 0 ∨
        (GridProtocol.flattenBytes frames).getD 0 0 > MAX_MESSAGE_BYTES
    · rw [if_pos hbad]
    · rw [if_neg hbad]
      by_cases hlt : (GridProtocol.flattenBytes frames).length <
          (if ((GridProtocol.flattenBytes frames).getD 0 0 + 2) % 2 = 0
            then (GridProtocol.flattenBytes frames).getD 0 0 + 2
            else (GridProtocol.flattenBytes frames).getD 0 0 + 2 + 1)
      · rw [if_pos hlt]
      · rw [if_neg hlt, if_pos hck]
  · intro frames hne hutf
    simp only [GridProtocol.decode]
    rw [if_neg (by simpa [List.length_eq_zero] using hne)]
    by_cases hbad : (GridProtocol.flattenBytes frames).getD 0 0 = 0 ∨
        (GridProtocol.flattenBytes frames).getD 0 0 > MAX_MESSAGE_BYTES
    · rw [if_pos hbad]
    · rw [if_neg hbad]
      by_cases hlt : (GridProtocol.flattenBytes frames).length <
          (if ((GridProtocol.flattenBytes frames).getD 0 0 + 2) % 2 = 0
            then (GridProtocol.flattenBytes frames).getD 0 0 + 2
            else (GridProtocol.flattenBytes frames).getD 0 0 + 2 + 1)
      · rw [if_pos hlt]
      · rw [if_neg hlt]
        by_cases hck : (GridProtocol.flattenBytes frames).getD
            (1 + (GridProtocol.flattenBytes frames).getD 0 0) 0 ≠
            GridProtocol.calculateChecksum
              (((GridProtocol.flattenBytes frames).drop 1).take
                ((GridProtocol.flattenBytes frames).getD 0 0))
        · rw [if_pos hck]
        · rw [if_neg hck]
          exact hutf

/-- C9 witness: rejection paths evaluated concretely — a frame list
declaring length 0, and one whose checksum byte is corrupted. -/
theorem C9_grid_decode_rejections_witness :
    GridProtocol.decode [[0, 0]] = none ∧
      GridProtocol.decode [[1, 65], [64, 0]] = none :=
  ⟨C9_grid_decode_rejections.2.1 [[0, 0]] (by decide) (by decide),
    C9_grid_decode_rejections.2.2.2.1 [[1, 65], [64, 0]] (by decide) (by decide)⟩

/-! ## Claim C2 -/

/-- C2 (spec-modelled): decodePartial returns none when fewer than 32
bits are available, none when no start marker can be located, none when
the length field is invalid, and otherwise decodes however many
complete data bytes are currently available — the declared length
capped by the bits on hand — ignoring the checksum and trimming any
trailing incomplete UTF-8 sequence. -/
theorem C2_decodePartial_semantics :
    (∀ bits : List Nat, bits.length < 32 → Protocol.decodePartial bits = none) ∧
    (∀ bits : List Nat, Protocol.findStartMarker bits = none →
      Protocol.decodePartial bits = none) ∧
    (∀ (bits : List Nat) (i : Nat), Protocol.findStartMarker bits = some i →
      (Protocol.bitsToNumber (List.take 8 (List.drop (i + 8) bits)) >
          MAX_MESSAGE_BYTES ∨
        Protocol.bitsToNumber (List.take 8 (List.drop (i + 8) bits)) = 0) →
      Protocol.decodePartial bits = none) ∧
    (∀ (bits : List Nat) (i : Nat) (dataBytes : List Nat),
      ¬(bits.length < 32) →
      Protocol.findStartMarker bits = some i →
      ¬((List.take 8 (List.drop (i + 8) bits)).length < 8) →
      ¬(Protocol.bitsToNumber (List.take 8 (List.drop (i + 8) bits)) >
          MAX_MESSAGE_BYTES ∨
        Protocol.bitsToNumber (List.take 8 (List.drop (i + 8) bits)) = 0) →
      Protocol.readDataBytes bits (i + 8 + 8)
        (min (Protocol.bitsToNumber (List.take 8 (List.drop (i + 8) bits)))
          ((bits.length - (i + 8 + 8)) / 8)) = some dataBytes →
      Protocol.decodePartial bits = utf8DecodeTrim dataBytes) := by
  refine ⟨?_, ?_, ?_, ?_⟩
  · intro bits hlt
    simp only [Protocol.decodePartial]
    rw [if_pos hlt]
  · intro bits h
    simp only [Protocol.decodePartial]
    by_cases hlt : bits.length < 32
    · rw [if_pos hlt]
    · rw [if_neg hlt, h]
  · intro bits i h hbad
    simp only [Protocol.decodePartial]
    by_cases hlt : bits.length < 32
    · rw [if_pos hlt]
    · rw [if_neg hlt, h]
      simp only []
      by_cases hl : (List.take 8 (List.drop (i + 8) bits)).length < 8
      · rw [if_pos hl]
      · rw [if_neg hl, if_pos hbad]
  · intro bits i dataBytes hlt h hl hbad hrd
    simp only [Protocol.decodePartial]
    rw [if_neg hlt, h]
    simp only []
    rw [if_neg hl, if_neg hbad, hrd]

/-- C2 witness: the partial decode evaluated concretely — on the empty
input and on the first 40 bits of an encoding of Test, where exactly
two complete data bytes are available. -/
theorem C2_decodePartial_semantics_witness :
    Protocol.decodePartial [] = none ∧
      Protocol.decodePartial
        (List.take 40 ((Protocol.encode ['T', 'e', 's', 't']).getD [])) =
        utf8DecodeTrim [84, 101] :=
  ⟨C2_decodePartial_semantics.1 [] (by decide),
    C2_decodePartial_semantics.2.2.2
      (List.take 40 ((Protocol.encode ['T', 'e', 's', 't']).getD [])) 8 [84, 101]
      (by decide) (by decide) (by decide) (by decide) (by decide)⟩

/-! ## Claim C3 -/

/-- C3 counterexample: with the state bits and 40 alternating bits
collected (no start marker, so decode fails), the manual receiver's
tryDecode reports a checksum error but leaves the state as bits and
the buffer non-empty — the session does not return to idle with a
cleared buffer on decode failure. -/
theorem C3_manual_failure_keeps_state :
    (ManualBitReceiver.tryDecode
      { state := ReceiverState.bits,
        bits := (List.range 40).map (fun i => i % 2) }).1.state ≠
        ReceiverState.idle ∧
    (ManualBitReceiver.tryDecode
      { state := ReceiverState.bits,
        bits := (List.range 40).map (fun i => i % 2) }).1.bits ≠ [] := by
  decide

/-- C3 (amended): a session returns to idle with the bit buffer
cleared on successful decode and on timeout, for both receivers; but
on decode failure ManualBitReceiver.tryDecode emits a checksum error
and leaves the state and bits untouched, and BitReceiver.tryDecode
likewise leaves the state unchanged. -/
theorem C3_session_lifecycle :
    (∀ (r : ManualBitReceiver.State) (msg : List Char),
      Protocol.decode r.bits = some msg →
      (ManualBitReceiver.tryDecode r).1.state = ReceiverState.idle ∧
        (ManualBitReceiver.tryDecode r).1.bits = []) ∧
    (∀ r : ManualBitReceiver.State, Protocol.decode r.bits = none →
      (ManualBitReceiver.tryDecode r).1 = r ∧
        Event.onError ErrorType.checksum MsgLabel.checksumFailedLong ∈
          (ManualBitReceiver.tryDecode r).2) ∧
    (∀ r : ManualBitReceiver.State,
      (ManualBitReceiver.reset r).1.state = ReceiverState.idle ∧
        (ManualBitReceiver.reset r).1.bits = []) ∧
    (∀ (r : BitReceiver.State) (msg : List Char),
      Protocol.decode r.bits = some msg →
      (BitReceiver.tryDecode r).1.state = ReceiverState.idle ∧
        (BitReceiver.tryDecode r).1.bits = []) ∧
    (∀ r : BitReceiver.State, Protocol.decode r.bits = none →
      (BitReceiver.tryDecode r).1 = r) ∧
    (∀ r : BitReceiver.State,
      (BitReceiver.handleTimeout r).1.state = ReceiverState.idle ∧
        (BitReceiver.handleTimeout r).1.bits = []) := by
  refine ⟨?_, ?_, ?_, ?_, ?_, ?_⟩
  · intro r msg h
    simp [ManualBitReceiver.tryDecode, h, ManualBitReceiver.reset]
  · intro r h
    simp [ManualBitReceiver.tryDecode, h]
  · intro r
    simp [ManualBitReceiver.reset]
  · intro r msg h
    simp [BitReceiver.tryDecode, h, BitReceiver.reset]
  · intro r h
    simp [BitReceiver.tryDecode, h]
  · intro r
    simp [BitReceiver.handleTimeout, BitReceiver.reset]

/-- C3 witness: the manual receiver's tryDecode on a valid frame for
the message A returns to idle with the buffer cleared. -/
theorem C3_session_lifecycle_witness :
    (ManualBitReceiver.tryDecode
      { state := ReceiverState.bits,
        bits := (Protocol.encode ['A']).getD [] }).1.state =
        ReceiverState.idle ∧
      (ManualBitReceiver.tryDecode
        { state := ReceiverState.bits,
          bits := (Protocol.encode ['A']).getD [] }).1.bits = [] :=
  C3_session_lifecycle.1
    { state := ReceiverState.bits, bits := (Protocol.encode ['A']).getD [] }
    ['A'] (by decide)

/-! ## Claim C4 -/

/-- C4: while in the bits state, when a bit is sampled after the bit
interval and appending it brings the buffer size above 2000
(MAX_BITS_TIMEOUT) without a valid frame having decoded, the receiver
emits the timeout error callback, clears the session and returns to
the idle state. -/
theorem C4_timeout (cfg : BitReceiverConfig) (r : BitReceiver.State) (now : ℚ)
    (bit : Nat)
    (hstate : r.state = ReceiverState.bits)
    (helapsed : now - r.lastBitTime ≥ cfg.bitMs + cfg.guardMs)
    (hnodecode : Protocol.decode (r.bits ++ [bit]) = none)
    (hcount : MAX_BITS_TIMEOUT < (r.bits ++ [bit]).length) :
    (BitReceiver.processFrame cfg r now false (some bit)).1.state =
        ReceiverState.idle ∧
      (BitReceiver.processFrame cfg r now false (some bit)).1.bits = [] ∧
      Event.onError ErrorType.timeout MsgLabel.receiveTimeoutLong ∈
        (BitReceiver.processFrame cfg r now false (some bit)).2 := by
  have h24 : (r.bits ++ [bit]).length ≥ 24 := by
    simp only [MAX_BITS_TIMEOUT] at hcount
    omega
  have hcount2 : MAX_BITS_TIMEOUT < r.bits.length + 1 := by
    simpa using hcount
  simp [BitReceiver.processFrame, hstate, BitReceiver.handleBitsState, helapsed,
    BitReceiver.tryDecode, hnodecode, BitReceiver.handleTimeout,
    BitReceiver.reset, h24, hcount2]

theorem fsm_replicate_zero : ∀ n, Protocol.findStartMarker (List.replicate n 0) = none := by
  intro n
  induction n using Nat.strong_induction_on with
  | _ n ih =>
    match n with
    | 0 => rfl
    | k + 1 =>
      rw [List.replicate_succ]
      by_cases h8 : 7 ≤ (List.replicate k 0).length
      · rw [fsm_cons_neg h8 (by simp)]
        rw [ih k (by omega)]
        rfl
      · rw [Protocol.findStartMarker]
        rw [if_pos (by simp at h8 ⊢; omega)]

/-- C4 witness: a receiver in the bits state holding 2000 zero bits
receives one more zero bit; no frame ever decodes from an all-zero
buffer, so the step times out, reports the timeout error and returns
to idle with the buffer cleared. -/
theorem C4_timeout_witness :
    (BitReceiver.processFrame ⟨1, 0, 300⟩
        { state := ReceiverState.bits, bits := List.replicate 2000 0,
          gapStartTime := 0, lastBitTime := 0 } 5 false (some 0)).1.state =
        ReceiverState.idle ∧
      (BitReceiver.processFrame ⟨1, 0, 300⟩
        { state := ReceiverState.bits, bits := List.replicate 2000 0,
          gapStartTime := 0, lastBitTime := 0 } 5 false (some 0)).1.bits = [] ∧
      Event.onError ErrorType.timeout MsgLabel.receiveTimeoutLong ∈
        (BitReceiver.processFrame ⟨1, 0, 300⟩
          { state := ReceiverState.bits, bits := List.replicate 2000 0,
            gapStartTime := 0, lastBitTime := 0 } 5 false (some 0)).2 :=
  C4_timeout ⟨1, 0, 300⟩
    { state := ReceiverState.bits, bits := List.replicate 2000 0,
      gapStartTime := 0, lastBitTime := 0 } 5 0 rfl (by norm_num)
    (by
      rw [show List.replicate 2000 (0 : Nat) ++ [0] = List.replicate 2001 0 from
        (List.replicate_succ' 2000 0).symm]
      simp only [Protocol.decode]
      rw [fsm_replicate_zero 2001])
    (by simp [MAX_BITS_TIMEOUT])

/-- C8 witness: the frame round trip evaluated on the sample frame
10101010 01010101. -/
theorem C8_grid_cells_frame_witness :
    GridProtocol.cellsToFrame (GridProtocol.frameToCells [0xAA, 0x55]) =
      [0xAA, 0x55] :=
  C8_grid_cells_frame.1 0xAA 0x55 (by decide) (by decide)
